import Mathlib

/-!
Verification of the Vista query-processing core against its specification.

This file gives a shallow embedding, in Lean 4, of the two algorithmic
components of the Vista repository:

* the sentence-boundary-aware sliding-window chunker
  (vista/text_chunker.py, class TextChunker), and
* the query engine (vista/query_engine.py, class QueryEngine):
  intent detection, prompt construction, context-size budgeting and the
  top-level query orchestration with its catch-all error handling.

Python strings are modelled as List Char (one element per code point);
Python ints as Int where subtraction can go negative (the context budget)
and as Nat where the source only ever handles sizes and indices.  The
while-loop of chunk_document is modelled as a step-indexed (fuel)
recursion; a dedicated theorem shows the fuel bound used everywhere is
sufficient, which is exactly the termination argument of the source.
External collaborators (embedding provider, vector index, LLM) are
modelled as functions returning Except Unit so that a raised exception
corresponds to an error value that propagates to the catch-all handler.
-/

namespace Vista

/-- Character-list form of a string literal. -/
def lit (s : String) : List Char := s.toList

/-- Whitespace test matching both the regex class backslash-s and the
default argument of str.strip and str.rstrip for the ASCII range used
throughout the source: space, tab, newline, carriage return, vertical
tab, form feed. -/
def isSpaceChar (c : Char) : Bool :=
  c = ' ' || c = '\t' || c = '\n' || c = '\r' || c = '\x0b' || c = '\x0c'

/-- Python str.rstrip with no argument: remove trailing whitespace. -/
def rstrip (l : List Char) : List Char :=
  ((l.reverse).dropWhile isSpaceChar).reverse

/-- Python str.strip with no argument: remove leading and trailing whitespace. -/
def strip (l : List Char) : List Char :=
  rstrip (l.dropWhile isSpaceChar)

/-- Python str.lower for the ASCII strings handled by intent detection. -/
def lower (l : List Char) : List Char := l.map Char.toLower

/-- Auxiliary scan of TextChunker._split_on_sentences: the running maximum
over all match end positions of the four patterns (a period, question mark
or exclamation mark followed by a whitespace character, each with match
end two past the punctuation position, or a newline with match end one
past it).  pos is the absolute position of the list head, acc the best
end position found so far (0 standing for the initial Python value -1,
since every genuine match end is positive). -/
def bestSplitAux : List Char → Nat → Nat → Nat
  | [], _, acc => acc
  | c :: rest, pos, acc =>
    let acc1 := if c = '\n' then max acc (pos + 1) else acc
    let acc2 :=
      match rest with
      | d :: _ =>
        if (c = '.' || c = '?' || c = '!') && isSpaceChar d then
          max acc1 (pos + 2)
        else acc1
      | [] => acc1
    bestSplitAux rest (pos + 1) acc2

/-- best_split of TextChunker._split_on_sentences: the largest match end
position of any sentence-ending pattern in the text, 0 if there is none. -/
def bestSplit (t : List Char) : Nat := bestSplitAux t 0 0

/-- TextChunker._split_on_sentences: cut at the last sentence boundary and
strip trailing whitespace; return the full text when no boundary exists. -/
def splitOnSentences (t : List Char) : List Char :=
  if 0 < bestSplit t then rstrip (t.take (bestSplit t)) else t

/-- Data model: vista/models.py Document. -/
structure Document where
  content : List Char
  file_path : List Char
  category : List Char
  filename : List Char
deriving DecidableEq

/-- Data model: vista/models.py Chunk.  The metadata dict is modelled as
an association list. -/
structure Chunk where
  text : List Char
  document_id : List Char
  chunk_index : Nat
  metadata : List (List Char × List Char)
deriving DecidableEq

/-- The metadata dict built by TextChunker.chunk_document. -/
def chunkMetadata (doc : Document) : List (List Char × List Char) :=
  [(lit "file_path", doc.file_path),
   (lit "category", doc.category),
   (lit "filename", doc.filename)]

/-- One loop iteration of TextChunker.chunk_document: the text of the
chunk emitted when the window starts at start.  The window end is
min (start + size) content.length, realised by take; when the window does
not reach the end of the content the sentence-boundary search runs,
otherwise the remaining text is taken verbatim; an empty result falls
back to the full window. -/
def chunkText (size : Nat) (content : List Char) (start : Nat) : List Char :=
  let window := (content.drop start).take size
  let t :=
    if start + size < content.length then splitOnSentences window
    else content.drop start
  if t.length = 0 then window else t

/-- The cursor advance of TextChunker.chunk_document:
max 1 (len emitted - overlap). -/
def chunkAdvance (size ov : Nat) (content : List Char) (start : Nat) : Nat :=
  max 1 ((chunkText size content start).length - ov)

/-- The while-loop of TextChunker.chunk_document, step-indexed: returns
the (start position, chunk text) pairs emitted, running while
start < content.length.  Any fuel of at least content.length - start
computes the exact loop result (theorem chunkLoopO_eq_chunkLoop below);
chunk_document instantiates fuel with content.length. -/
def chunkLoop (size ov : Nat) (content : List Char) : Nat → Nat → List (Nat × List Char)
  | _start, 0 => []
  | start, fuel + 1 =>
    if start < content.length then
      (start, chunkText size content start) ::
        chunkLoop size ov content (start + chunkAdvance size ov content start) fuel
    else []

/-- The while-loop of TextChunker.chunk_document modelled without the
totality shortcut: none means the loop was still running when the given
number of iterations was used up, so a some result is exactly a finite
run of the source loop. -/
def chunkLoopO (size ov : Nat) (content : List Char) : Nat → Nat → Option (List (Nat × List Char))
  | start, 0 => if start < content.length then none else some []
  | start, fuel + 1 =>
    if start < content.length then
      (chunkLoopO size ov content (start + chunkAdvance size ov content start) fuel).map
        (fun rest => (start, chunkText size content start) :: rest)
    else some []

/-- TextChunker.chunk_document: a document no longer than chunk_size is a
single chunk; otherwise the sliding-window loop runs and each emitted
text becomes a Chunk with sequential chunk_index. -/
def chunk_document (size ov : Nat) (doc : Document) : List Chunk :=
  if doc.content.length ≤ size then
    [⟨doc.content, doc.file_path, 0, chunkMetadata doc⟩]
  else
    (chunkLoop size ov doc.content 0 doc.content.length).enum.map
      (fun p => ⟨p.2.2, doc.file_path, p.1, chunkMetadata doc⟩)

/-- Data model: vista/models.py RetrievedChunk.  The float
similarity_score is never computed on by the query engine, only copied,
so it is modelled by an opaque integer stand-in. -/
structure RetrievedChunk where
  text : List Char
  metadata : List (List Char × List Char)
  similarity_score : Int
deriving DecidableEq

/-- Data model: vista/models.py QueryResponse. -/
structure QueryResponse where
  answer : List Char
  sources : List RetrievedChunk
  query : List Char
deriving DecidableEq

/-- vista/query_engine.py QueryIntent. -/
inductive QueryIntent
  | GREETING
  | IDENTITY
  | META
  | KNOWLEDGE
deriving DecidableEq

/-- The fixed greeting set of QueryEngine._detect_intent. -/
def greetingSet : List (List Char) :=
  [lit "hi", lit "hello", lit "hey", lit "hey there"]

/-- QueryEngine._detect_intent: lower-case and trim the question, then
check the ordered rules greeting, identity, meta, knowledge. -/
def detect_intent (question : List Char) : QueryIntent :=
  let q := strip (lower question)
  if q ∈ greetingSet then .GREETING
  else if lit "who are you" <:+: q ∨ lit "what are you" <:+: q then .IDENTITY
  else if lit "how does vista work" <:+: q ∨ lit "how do you work" <:+: q then .META
  else .KNOWLEDGE

/-- Python str.join over a list of parts. -/
def joinSep (sep : List Char) : List (List Char) → List Char
  | [] => []
  | [x] => x
  | x :: y :: xs => x ++ sep ++ joinSep sep (y :: xs)

/-- QueryEngine._construct_direct_prompt: system and identity prompts,
the meta prompt only for META intent, then the question block, joined
with blank lines. -/
def construct_direct_prompt (systemP identityP metaP : List Char)
    (question : List Char) (intent : QueryIntent) : List Char :=
  joinSep (lit "\n\n")
    ([systemP, identityP] ++ (if intent = .META then [metaP] else []) ++
      [lit "User question:\n" ++ question ++ lit "\n\nAnswer:"])

/-- The fixed admission-of-ignorance instruction of
QueryEngine._construct_no_context_prompt. -/
def noContextInstruction : List Char :=
  lit "The user asked a question, but no relevant information was found.\nRespond honestly and say that you do not have enough information.\nDo not speculate or fabricate details."

/-- QueryEngine._construct_no_context_prompt: the f-string with system,
identity, the instruction, the question and the answer cue, stripped. -/
def construct_no_context_prompt (systemP identityP question : List Char) : List Char :=
  strip (lit "\n" ++ systemP ++ lit "\n\n" ++ identityP ++ lit "\n\n" ++
    noContextInstruction ++ lit "\n\nQuestion:\n" ++ question ++ lit "\n\nAnswer:\n")

/-- Python dict.get with a default, on the association-list model. -/
def metaGet (m : List (List Char × List Char)) (k d : List Char) : List Char :=
  match m.find? (fun p => p.1 == k) with
  | some p => p.2
  | none => d

/-- The per-chunk source attribution of QueryEngine._construct_rag_prompt:
empty for an empty metadata dict, otherwise category and filename. -/
def sourceInfo (c : RetrievedChunk) : List Char :=
  if c.metadata.isEmpty then []
  else
    lit " (Source: " ++ metaGet c.metadata (lit "category") (lit "unknown") ++
      lit "/" ++ metaGet c.metadata (lit "filename") (lit "unknown") ++ lit ")"

/-- The numbered context blocks of QueryEngine._construct_rag_prompt,
enumerated from 1. -/
def contextParts (chunks : List RetrievedChunk) : List (List Char) :=
  chunks.enum.map
    (fun p => lit "Context " ++ (toString (p.1 + 1)).toList ++ sourceInfo p.2 ++
      lit ":\n" ++ p.2.text)

/-- QueryEngine._construct_rag_prompt: the f-string with system, identity,
the context-only instruction, the question, the joined context blocks and
the answer cue, stripped. -/
def construct_rag_prompt (systemP identityP question : List Char)
    (contextChunks : List RetrievedChunk) : List Char :=
  strip (lit "\n" ++ systemP ++ lit "\n\n" ++ identityP ++ lit "\n\n" ++
    lit "Answer the question using ONLY the context below.\nIf the context is insufficient, say so clearly." ++
    lit "\n\nQuestion:\n" ++ question ++ lit "\n\n" ++
    joinSep (lit "\n\n") (contextParts contextChunks) ++ lit "\n\nAnswer:\n")

/-- The per-chunk cost accumulated by QueryEngine._limit_context_size:
text length plus 100 characters of formatting overhead. -/
def chunkCost (c : RetrievedChunk) : Int := (c.text.length : Int) + 100

/-- The chunk-selection loop of QueryEngine._limit_context_size: walk the
chunks in order, keep a chunk while the running total stays within the
budget, and stop at the first chunk that would exceed it. -/
def greedyTake (avail : Int) : Int → List RetrievedChunk → List RetrievedChunk
  | _cur, [] => []
  | cur, c :: rest =>
    if cur + chunkCost c ≤ avail then c :: greedyTake avail (cur + chunkCost c) rest
    else []

/-- Python list slicing l[:n], including the negative-index case where
characters are counted from the end. -/
def pythonTake (n : Int) (l : List Char) : List Char :=
  if n < 0 then l.take (l.length - (-n).toNat) else l.take n.toNat

/-- QueryEngine._limit_context_size: reserve 500 tokens, convert to a
character budget at 4 characters per token, select a prefix of the chunks
greedily, and when nothing was selected return the first chunk truncated
to the slice l[:budget - 100] with an ellipsis appended. -/
def limit_context_size (maxContextTokens : Int) (chunks : List RetrievedChunk) :
    List RetrievedChunk :=
  match chunks with
  | [] => []
  | first :: _ =>
    let availableChars : Int := (maxContextTokens - 500) * 4
    let limited := greedyTake availableChars 0 chunks
    if limited.isEmpty then
      let maxChunkChars := availableChars - 100
      let truncated :=
        if (first.text.length : Int) > maxChunkChars then
          pythonTake maxChunkChars first.text ++ lit "..."
        else first.text
      [⟨truncated, first.metadata, first.similarity_score⟩]
    else limited

/-- The external collaborators of the query engine, each modelled as a
function that can fail (an error value standing for a raised exception). -/
structure Collaborators (E : Type) where
  embed : List Char → Except Unit E
  storeQuery : E → Nat → Except Unit (List RetrievedChunk)
  generate : List Char → Except Unit (List Char)

/-- The catch-all answer of QueryEngine.query. -/
def internalErrorAnswer : List Char :=
  lit "I ran into an internal error while answering this question."

/-- Propagation of a successful value through Except.bind. -/
theorem except_bind_ok {E A B : Type} (a : A) (f : A → Except E B) :
    (Except.ok a).bind f = f a := rfl

/-- Propagation of an error through Except.bind. -/
theorem except_bind_error {E A B : Type} (e : E) (f : A → Except E B) :
    (Except.error e : Except E A).bind f = Except.error e := rfl

/-- Mapping over a successful Except value. -/
theorem except_map_ok {E A B : Type} (a : A) (f : A → B) :
    (Except.ok a : Except E A).map f = Except.ok (f a) := rfl

/-- Mapping over an Except error. -/
theorem except_map_error {E A B : Type} (e : E) (f : A → B) :
    (Except.error e : Except E A).map f = Except.error e := rfl

/-- The body of the try-block of QueryEngine.query: intent detection,
the direct path for greeting, identity and meta intents, and the RAG path
with its empty-retrieval branch.  An error value from a collaborator
short-circuits through bind, modelling a propagating exception. -/
def queryE {E : Type} (systemP identityP metaP : List Char) (maxContextTokens : Int)
    (col : Collaborators E) (question : List Char) (nResults : Nat) :
    Except Unit QueryResponse :=
  if detect_intent question = .GREETING ∨ detect_intent question = .IDENTITY ∨
      detect_intent question = .META then
    (col.generate (construct_direct_prompt systemP identityP metaP question
        (detect_intent question))).map
      (fun answer => ⟨answer, [], question⟩)
  else
    (col.embed question).bind fun emb =>
      (col.storeQuery emb nResults).bind fun retrieved =>
        if retrieved.isEmpty then
          (col.generate (construct_no_context_prompt systemP identityP question)).map
            (fun answer => ⟨answer, [], question⟩)
        else
          (col.generate (construct_rag_prompt systemP identityP question
              (limit_context_size maxContextTokens retrieved))).map
            (fun answer => ⟨answer, limit_context_size maxContextTokens retrieved, question⟩)

/-- QueryEngine.query: the try-block result, with any error converted
into the internal-error QueryResponse by the top-level except handler. -/
def query {E : Type} (systemP identityP metaP : List Char) (maxContextTokens : Int)
    (col : Collaborators E) (question : List Char) (nResults : Nat) : QueryResponse :=
  match queryE systemP identityP metaP maxContextTokens col question nResults with
  | .ok r => r
  | .error _ => ⟨internalErrorAnswer, [], question⟩

/-! ### Elementary facts about the chunker building blocks -/

theorem rstrip_isPref (l : List Char) : rstrip l <+: l := by
  refine ⟨(l.reverse.takeWhile isSpaceChar).reverse, ?_⟩
  rw [rstrip, ← List.reverse_append, List.takeWhile_append_dropWhile, List.reverse_reverse]

theorem splitOnSentences_isPref (t : List Char) : splitOnSentences t <+: t := by
  unfold splitOnSentences
  split
  · exact (rstrip_isPref _).trans (List.take_prefix _ _)
  · exact List.prefix_refl t

theorem splitOnSentences_of_no_boundary (t : List Char) (h : bestSplit t = 0) :
    splitOnSentences t = t := by
  simp [splitOnSentences, h]

theorem chunkText_isPref (size : Nat) (content : List Char) (start : Nat) :
    chunkText size content start <+: content.drop start := by
  by_cases hc : start + size < content.length <;>
    simp only [chunkText, hc, if_true, if_false, reduceIte] <;> split
  · exact List.take_prefix _ _
  · exact (splitOnSentences_isPref _).trans (List.take_prefix _ _)
  · exact List.take_prefix _ _
  · exact List.prefix_refl _

theorem chunkText_length_le (size : Nat) (content : List Char) (start : Nat) :
    (chunkText size content start).length ≤ size := by
  by_cases hc : start + size < content.length <;>
    simp only [chunkText, hc, if_true, if_false, reduceIte] <;> split
  · simp [List.length_take]
  · exact le_trans ((splitOnSentences_isPref _).length_le) (by simp [List.length_take])
  · simp [List.length_take]
  · simp only [List.length_drop]
    omega

theorem chunkText_ne_nil (size : Nat) (content : List Char) (start : Nat)
    (hsz : 0 < size) (hstart : start < content.length) :
    chunkText size content start ≠ [] := by
  have hwin : ((content.drop start).take size).length = min size (content.length - start) := by
    simp [List.length_take]
  by_cases hc : start + size < content.length <;>
    simp only [chunkText, hc, if_true, if_false, reduceIte] <;> split <;>
      rename_i hlen
  · intro hnil
    rw [hnil] at hwin
    simp at hwin
    omega
  · intro hnil
    rw [hnil] at hlen
    simp at hlen
  · intro hnil
    rw [hnil] at hwin
    simp at hwin
    omega
  · intro hnil
    rw [hnil] at hlen
    simp at hlen

theorem chunkAdvance_pos (size ov : Nat) (content : List Char) (start : Nat) :
    1 ≤ chunkAdvance size ov content start := le_max_left 1 _

theorem chunkAdvance_le_length (size ov : Nat) (content : List Char) (start : Nat)
    (hsz : 0 < size) (hstart : start < content.length) :
    chunkAdvance size ov content start ≤ (chunkText size content start).length := by
  have h1 : (chunkText size content start).length ≠ 0 :=
    fun h => chunkText_ne_nil size content start hsz hstart (List.length_eq_zero.mp h)
  unfold chunkAdvance
  omega

theorem chunkLoop_eq_nil (size ov : Nat) (content : List Char) (start fuel : Nat)
    (h : content.length ≤ start) : chunkLoop size ov content start fuel = [] := by
  cases fuel <;> simp [chunkLoop, Nat.not_lt.mpr h]

/-- The loop of chunk_document terminates: any fuel of at least
content.length - start runs the source loop to completion and computes
the same pair list as the totalised model. -/
theorem chunkLoopO_eq_chunkLoop (size ov : Nat) (content : List Char) :
    ∀ fuel start, content.length - start ≤ fuel →
      chunkLoopO size ov content start fuel = some (chunkLoop size ov content start fuel) := by
  intro fuel
  induction fuel with
  | zero =>
    intro start h
    have hge : content.length ≤ start := by omega
    simp [chunkLoopO, chunkLoop, Nat.not_lt.mpr hge]
  | succ n ih =>
    intro start h
    by_cases hs : start < content.length
    · have hadv := chunkAdvance_pos size ov content start
      have : content.length - (start + chunkAdvance size ov content start) ≤ n := by omega
      simp [chunkLoopO, chunkLoop, hs, ih _ this]
    · simp [chunkLoopO, chunkLoop, hs]

theorem chunkText_eq_drop (size : Nat) (content : List Char) (start : Nat)
    (hs : start < content.length) (hc : ¬ start + size < content.length) :
    chunkText size content start = content.drop start := by
  have hne : (content.drop start).length ≠ 0 := by
    simp only [List.length_drop]
    omega
  simp only [chunkText, hc, if_false, reduceIte]
  split <;> rename_i hlen
  · exact absurd hlen hne
  · rfl

theorem chunkLoop_mem (size ov : Nat) (content : List Char) (hsz : 0 < size) :
    ∀ fuel start p, p ∈ chunkLoop size ov content start fuel →
      p.2.length ≤ size ∧ p.2 <+: content.drop p.1 ∧ p.2 ≠ [] ∧
        start ≤ p.1 ∧ p.1 < content.length := by
  intro fuel
  induction fuel with
  | zero =>
    intro start p hp
    simp [chunkLoop] at hp
  | succ n ih =>
    intro start p hp
    simp only [chunkLoop] at hp
    by_cases hs : start < content.length
    · simp only [hs, if_true, reduceIte] at hp
      rcases List.mem_cons.mp hp with rfl | hp2
      · exact ⟨chunkText_length_le _ _ _, chunkText_isPref _ _ _,
          chunkText_ne_nil _ _ _ hsz hs, le_refl _, hs⟩
      · obtain ⟨h1, h2, h3, h4, h5⟩ := ih _ _ hp2
        have hadv := chunkAdvance_pos size ov content start
        exact ⟨h1, h2, h3, by omega, h5⟩
    · simp [hs] at hp

theorem chunkLoop_head_start (size ov : Nat) (content : List Char) (fuel start : Nat)
    (p : Nat × List Char) (h : (chunkLoop size ov content start fuel).head? = some p) :
    p.1 = start := by
  cases fuel with
  | zero => simp [chunkLoop] at h
  | succ n =>
    by_cases hs : start < content.length
    · simp only [chunkLoop, hs, if_true, reduceIte, List.head?_cons] at h
      cases h
      rfl
    · simp [chunkLoop, hs] at h

theorem chunkLoop_chain (size ov : Nat) (content : List Char) (hsz : 0 < size) :
    ∀ fuel start,
      List.Chain' (fun p q => q.1 ≤ p.1 + p.2.length)
        (chunkLoop size ov content start fuel) := by
  intro fuel
  induction fuel with
  | zero => simp [chunkLoop]
  | succ n ih =>
    intro start
    by_cases hs : start < content.length
    · simp only [chunkLoop, hs, if_true, reduceIte]
      refine List.chain'_cons'.mpr ⟨?_, ih _⟩
      intro q hq
      have hq1 := chunkLoop_head_start size ov content n _ q hq
      have hle := chunkAdvance_le_length size ov content start hsz hs
      simp only [hq1]
      omega
    · simp [chunkLoop, hs]

theorem chunkLoop_ne_nil (size ov : Nat) (content : List Char) (fuel start : Nat)
    (hs : start < content.length) (hf : 0 < fuel) :
    chunkLoop size ov content start fuel ≠ [] := by
  cases fuel with
  | zero => omega
  | succ n => simp [chunkLoop, hs]

theorem chunkLoop_getLast?_end (size ov : Nat) (content : List Char) (hsz : 0 < size) :
    ∀ fuel start p, content.length - start ≤ fuel →
      (chunkLoop size ov content start fuel).getLast? = some p →
      p.1 + p.2.length = content.length := by
  intro fuel
  induction fuel with
  | zero =>
    intro start p hf h
    simp [chunkLoop] at h
  | succ n ih =>
    intro start p hf h
    by_cases hs : start < content.length
    · simp only [chunkLoop, hs, if_true, reduceIte] at h
      cases hrest : chunkLoop size ov content (start + chunkAdvance size ov content start) n with
      | nil =>
        rw [hrest, List.getLast?_singleton] at h
        cases h
        by_cases hc : start + size < content.length
        · exfalso
          have h1 := chunkAdvance_le_length size ov content start hsz hs
          have h2 := chunkText_length_le size content start
          have h3 : start + chunkAdvance size ov content start < content.length := by omega
          exact chunkLoop_ne_nil size ov content n _ h3 (by omega) hrest
        · rw [chunkText_eq_drop size content start hs hc]
          simp only [List.length_drop]
          omega
      | cons q qs =>
        rw [hrest, List.getLast?_cons_cons] at h
        have hadv := chunkAdvance_pos size ov content start
        refine ih (start + chunkAdvance size ov content start) p (by omega) ?_
        rw [hrest]
        exact h
    · simp [chunkLoop, hs] at h

theorem chunkLoop_flatten_zero_overlap (size : Nat) (content : List Char) (hsz : 0 < size) :
    ∀ fuel start, content.length - start ≤ fuel →
      ((chunkLoop size 0 content start fuel).map Prod.snd).flatten = content.drop start := by
  intro fuel
  induction fuel with
  | zero =>
    intro start hf
    have : content.length ≤ start := by omega
    simp [chunkLoop, List.drop_eq_nil_iff.mpr this]
  | succ n ih =>
    intro start hf
    by_cases hs : start < content.length
    · simp only [chunkLoop, hs, if_true, reduceIte, List.map_cons, List.flatten_cons]
      have hne : (chunkText size content start).length ≠ 0 := fun h =>
        chunkText_ne_nil size content start hsz hs (List.length_eq_zero.mp h)
      have hadv : chunkAdvance size 0 content start = (chunkText size content start).length := by
        unfold chunkAdvance
        omega
      rw [hadv]
      rw [ih (start + (chunkText size content start).length) (by omega)]
      have hpref := chunkText_isPref size content start
      have htake := List.prefix_iff_eq_take.mp hpref
      have h2 : List.drop (start + (chunkText size content start).length) content =
          List.drop (chunkText size content start).length (List.drop start content) := by
        rw [List.drop_drop, Nat.add_comm]
      rw [h2]
      nth_rewrite 1 [htake]
      exact List.take_append_drop _ _
    · have : content.length ≤ start := by omega
      simp [chunkLoop, hs, List.drop_eq_nil_iff.mpr this]

theorem chunk_document_texts (size ov : Nat) (doc : Document) (h : size < doc.content.length) :
    (chunk_document size ov doc).map Chunk.text =
      (chunkLoop size ov doc.content 0 doc.content.length).map Prod.snd := by
  rw [chunk_document, if_neg (by omega)]
  rw [List.map_map]
  have hfe : (Chunk.text ∘ fun p : Nat × (Nat × List Char) =>
      Chunk.mk p.2.2 doc.file_path p.1 (chunkMetadata doc)) = Prod.snd ∘ Prod.snd := rfl
  rw [hfe, ← List.map_map, List.enum_map_snd]

theorem mem_chunk_document_text (size ov : Nat) (doc : Document)
    (h : size < doc.content.length) (c : Chunk) (hc : c ∈ chunk_document size ov doc) :
    ∃ p ∈ chunkLoop size ov doc.content 0 doc.content.length, c.text = p.2 := by
  rw [chunk_document, if_neg (by omega)] at hc
  obtain ⟨q, hq, rfl⟩ := List.mem_map.mp hc
  refine ⟨q.2, ?_, rfl⟩
  have hmem := List.mem_map_of_mem Prod.snd hq
  rwa [List.enum_map_snd] at hmem

theorem chunk_text_le_of_mem (size ov : Nat) (doc : Document) (hsz : 0 < size)
    (c : Chunk) (hc : c ∈ chunk_document size ov doc) : c.text.length ≤ size := by
  by_cases h : doc.content.length ≤ size
  · rw [chunk_document, if_pos h] at hc
    simp only [List.mem_singleton] at hc
    subst hc
    exact h
  · obtain ⟨p, hp, he⟩ :=
      mem_chunk_document_text size ov doc (Nat.not_le.mp h) c hc
    rw [he]
    exact (chunkLoop_mem size ov doc.content hsz _ _ _ hp).1

/-- Claim C2, counterexample.  The claim says that when a single sentence
alone exceeds chunk_size, that sentence is emitted whole as one chunk.
The document here is one boundary-free sentence of 10 characters chunked
with the valid configuration chunk_size 5, overlap 0: the code emits two
5-character chunks produced by hard cuts, and no emitted chunk equals the
whole sentence. -/
theorem chunk_long_sentence_cex :
    (0 < 5 ∧ 0 < 5 ∧
      bestSplit (List.replicate 10 'a') = 0 ∧
      5 < (List.replicate 10 'a').length) ∧
    (chunk_document 5 0 ⟨List.replicate 10 'a', lit "doc", lit "cat", lit "fn"⟩).map
        Chunk.text = [List.replicate 5 'a', List.replicate 5 'a'] ∧
    ∀ c ∈ chunk_document 5 0 ⟨List.replicate 10 'a', lit "doc", lit "cat", lit "fn"⟩,
      c.text ≠ List.replicate 10 'a' := by decide

/-- Claim C2, amended: for every valid configuration (0 < chunk_size,
overlap < chunk_size) and every document, every chunk emitted by
chunk_document has text length at most chunk_size, with no exception:
a sentence longer than chunk_size is hard-cut, never emitted whole. -/
theorem chunk_bound_unconditional (size ov : Nat) (doc : Document)
    (hsz : 0 < size) (hov : ov < size) :
    ∀ c ∈ chunk_document size ov doc, c.text.length ≤ size :=
  fun c hc => chunk_text_le_of_mem size ov doc hsz c hc

/-- Claim C2, witness for the amended theorem at a concrete document. -/
theorem chunk_bound_unconditional_witness :
    0 < 5 ∧ 1 < 5 ∧
      ∀ c ∈ chunk_document 5 1 ⟨lit "ab. cdef. gh", lit "p", lit "c", lit "f"⟩,
        c.text.length ≤ 5 :=
  ⟨by decide, by decide,
    chunk_bound_unconditional 5 1 ⟨lit "ab. cdef. gh", lit "p", lit "c", lit "f"⟩
      (by decide) (by decide)⟩

/-- Claim C10: the chunk_size cap is hard.  For every valid configuration
and document: every emitted chunk has length at most chunk_size; when a
non-final window contains no sentence boundary the emitted text is the
full window, i.e. the text is cut at exactly the window boundary; and for
a document longer than chunk_size no emitted chunk equals the whole
content, so an over-long sentence is never emitted whole. -/
theorem chunk_hard_cut (size ov : Nat) (doc : Document)
    (hsz : 0 < size) (hov : ov < size) :
    (∀ c ∈ chunk_document size ov doc, c.text.length ≤ size) ∧
    (∀ start, start < doc.content.length →
      bestSplit ((doc.content.drop start).take size) = 0 →
      chunkText size doc.content start = (doc.content.drop start).take size) ∧
    (size < doc.content.length →
      ∀ c ∈ chunk_document size ov doc, c.text ≠ doc.content) := by
  refine ⟨fun c hc => chunk_text_le_of_mem size ov doc hsz c hc, ?_, ?_⟩
  · intro start hstart hb
    by_cases hc : start + size < doc.content.length
    · simp only [chunkText, hc, if_true, reduceIte,
        splitOnSentences_of_no_boundary _ hb]
      split <;> rfl
    · rw [chunkText_eq_drop size doc.content start hstart hc]
      have : (doc.content.drop start).length ≤ size := by
        simp only [List.length_drop]
        omega
      rw [List.take_of_length_le this]
  · intro hlen c hc heq
    have hle := chunk_text_le_of_mem size ov doc hsz c hc
    rw [heq] at hle
    omega

/-- Claim C10, witness at a concrete boundary-free document. -/
theorem chunk_hard_cut_witness :
    0 < 4 ∧ 2 < 4 ∧
      (∀ c ∈ chunk_document 4 2 ⟨lit "abcdefghij", lit "p", lit "c", lit "f"⟩,
        c.text.length ≤ 4) ∧
      (4 < (lit "abcdefghij").length →
        ∀ c ∈ chunk_document 4 2 ⟨lit "abcdefghij", lit "p", lit "c", lit "f"⟩,
          c.text ≠ lit "abcdefghij") := by
  have h := chunk_hard_cut 4 2 ⟨lit "abcdefghij", lit "p", lit "c", lit "f"⟩
    (by decide) (by decide)
  exact ⟨by decide, by decide, h.1, h.2.2⟩

/-- Claim C8: chunk_document terminates.  The step-indexed model of its
while-loop completes, with the loop exit start ≥ content.length reached,
whenever the iteration allowance is at least content.length - start,
because every iteration advances the cursor by
max 1 (emitted length - overlap) ≥ 1.  This covers every valid
configuration, including overlap = chunk_size - 1. -/
theorem chunk_loop_terminates (size ov : Nat) (content : List Char)
    (hsz : 0 < size) (hov : ov < size) :
    ∀ fuel start, content.length - start ≤ fuel →
      chunkLoopO size ov content start fuel =
        some (chunkLoop size ov content start fuel) :=
  fun fuel start h => chunkLoopO_eq_chunkLoop size ov content fuel start h

/-- Claim C8, witness: the extreme configuration overlap = chunk_size - 1
on a concrete document. -/
theorem chunk_loop_terminates_witness :
    chunkLoopO 5 4 (lit "ab. cdefgh") 0 10 =
      some (chunkLoop 5 4 (lit "ab. cdefgh") 0 10) :=
  chunk_loop_terminates 5 4 (lit "ab. cdefgh") (by decide) (by decide) 10 0 (by decide)

/-- Concatenation of chunk texts with the declared overlap removed from
every chunk after the first: the reading of reconstruction used by the
specification. -/
def reconstructOverlap (ov : Nat) : List (List Char) → List Char
  | [] => []
  | t :: rest => t ++ (rest.map (fun u => u.drop ov)).flatten

/-- Claim C7, counterexample.  With the valid configuration chunk_size 10,
overlap 5 and a 22-character document, concatenating the emitted chunk
texts with 5-character overlaps removed does not reconstruct the content:
short sentence-boundary chunks advance the cursor by only one character,
and after the chunk that reaches the end of the content the loop keeps
emitting shrinking suffix chunks, e.g. consecutive chunks starting at
positions 17 and 18 that overlap by 4 characters, not the declared 5. -/
theorem chunk_reconstruction_cex :
    (0 < 10 ∧ 5 < 10 ∧ 10 < (lit "ab. cdefghijklmnopqrst").length) ∧
    reconstructOverlap 5
        ((chunk_document 10 5
            ⟨lit "ab. cdefghijklmnopqrst", lit "doc", lit "cat", lit "fn"⟩).map
          Chunk.text) ≠ lit "ab. cdefghijklmnopqrst" ∧
    (chunkLoop 10 5 (lit "ab. cdefghijklmnopqrst") 0 22)[6]? =
      some (17, lit "pqrst") ∧
    (chunkLoop 10 5 (lit "ab. cdefghijklmnopqrst") 0 22)[7]? =
      some (18, lit "qrst") ∧
    ¬ (17 + (lit "pqrst").length - 18 = 5) := by decide

/-- Claim C7, amended: the chunks cover the document — every emitted text
occurs in the content at its start offset, the first window starts at 0,
consecutive windows never skip characters, and the final emitted chunk
ends exactly at the end of the content; moreover for overlap 0 plain
concatenation of the chunk texts reconstructs the content exactly.  For
positive overlap, removal of the declared overlap does not in general
reconstruct the content (see the counterexample). -/
theorem chunk_coverage_amended (size ov : Nat) (doc : Document)
    (hsz : 0 < size) (hov : ov < size) (hlen : size < doc.content.length) :
    (chunk_document size ov doc).map Chunk.text =
      (chunkLoop size ov doc.content 0 doc.content.length).map Prod.snd ∧
    chunkLoop size ov doc.content 0 doc.content.length ≠ [] ∧
    (∀ p ∈ chunkLoop size ov doc.content 0 doc.content.length,
      p.2 ≠ [] ∧ p.2 <+: doc.content.drop p.1) ∧
    (∀ p, (chunkLoop size ov doc.content 0 doc.content.length).head? = some p →
      p.1 = 0) ∧
    List.Chain' (fun p q => q.1 ≤ p.1 + p.2.length)
      (chunkLoop size ov doc.content 0 doc.content.length) ∧
    (∀ p, (chunkLoop size ov doc.content 0 doc.content.length).getLast? = some p →
      p.1 + p.2.length = doc.content.length) ∧
    (ov = 0 → ((chunk_document size ov doc).map Chunk.text).flatten = doc.content) := by
  refine ⟨chunk_document_texts size ov doc hlen, ?_, ?_, ?_, ?_, ?_, ?_⟩
  · exact chunkLoop_ne_nil size ov doc.content _ 0 (by omega) (by omega)
  · intro p hp
    have h := chunkLoop_mem size ov doc.content hsz _ _ _ hp
    exact ⟨h.2.2.1, h.2.1⟩
  · intro p hp
    exact chunkLoop_head_start size ov doc.content _ 0 p hp
  · exact chunkLoop_chain size ov doc.content hsz _ 0
  · intro p hp
    exact chunkLoop_getLast?_end size ov doc.content hsz _ 0 p (by omega) hp
  · intro hov0
    subst hov0
    rw [chunk_document_texts size 0 doc hlen]
    have := chunkLoop_flatten_zero_overlap size doc.content hsz doc.content.length 0
      (by omega)
    rw [this, List.drop_zero]

/-- Claim C7, witness for the amended theorem at a concrete document with
overlap 0, where exact reconstruction holds. -/
theorem chunk_coverage_amended_witness :
    (0 < 5 ∧ 0 < 5 ∧ 5 < (lit "ab. cdefghij").length) ∧
    ((chunk_document 5 0 ⟨lit "ab. cdefghij", lit "p", lit "c", lit "f"⟩).map
        Chunk.text).flatten = lit "ab. cdefghij" :=
  ⟨⟨by decide, by decide, by decide⟩,
    (chunk_coverage_amended 5 0 ⟨lit "ab. cdefghij", lit "p", lit "c", lit "f"⟩
      (by decide) (by decide) (by decide)).2.2.2.2.2.2 rfl⟩

/-! ### Context-size budgeting -/

/-- Total accumulated cost of a chunk list in _limit_context_size. -/
def costSum (l : List RetrievedChunk) : Int := (l.map chunkCost).sum

theorem chunkCost_pos (c : RetrievedChunk) : 0 < chunkCost c := by
  have h : (0 : Int) ≤ (c.text.length : Int) := Int.ofNat_nonneg _
  unfold chunkCost
  omega

theorem costSum_nil : costSum [] = 0 := rfl

theorem costSum_cons (c : RetrievedChunk) (l : List RetrievedChunk) :
    costSum (c :: l) = chunkCost c + costSum l := by
  simp [costSum]

theorem costSum_nonneg (l : List RetrievedChunk) : 0 ≤ costSum l := by
  induction l with
  | nil => simp [costSum]
  | cons c cs ih =>
    rw [costSum_cons]
    have := chunkCost_pos c
    omega

theorem greedyTake_isPref (avail : Int) :
    ∀ l cur, greedyTake avail cur l <+: l := by
  intro l
  induction l with
  | nil => intro cur; exact List.prefix_refl _
  | cons c cs ih =>
    intro cur
    unfold greedyTake
    split
    · exact List.cons_prefix_cons.mpr ⟨rfl, ih _⟩
    · exact List.nil_prefix

theorem greedyTake_cost (avail : Int) :
    ∀ l cur, cur ≤ avail → cur + costSum (greedyTake avail cur l) ≤ avail := by
  intro l
  induction l with
  | nil =>
    intro cur hc
    simpa [greedyTake, costSum] using hc
  | cons c cs ih =>
    intro cur hc
    unfold greedyTake
    split <;> rename_i hfit
    · rw [costSum_cons]
      have := ih (cur + chunkCost c) hfit
      omega
    · simpa [costSum] using hc

theorem greedyTake_maximal (avail : Int) :
    ∀ l cur m, m ≤ l.length → cur + costSum (l.take m) ≤ avail →
      m ≤ (greedyTake avail cur l).length := by
  intro l
  induction l with
  | nil =>
    intro cur m hm _
    simp only [List.length_nil, Nat.le_zero] at hm
    subst hm
    simp [greedyTake]
  | cons c cs ih =>
    intro cur m hm hcost
    cases m with
    | zero => omega
    | succ m2 =>
      rw [List.take_succ_cons, costSum_cons] at hcost
      have hrest := costSum_nonneg (cs.take m2)
      have hfit : cur + chunkCost c ≤ avail := by omega
      unfold greedyTake
      rw [if_pos hfit]
      simp only [List.length_cons]
      have := ih (cur + chunkCost c) m2 (by simpa using hm) (by omega)
      omega

theorem greedyTake_length_mono (a a2 : Int) (h : a ≤ a2) :
    ∀ l cur, (greedyTake a cur l).length ≤ (greedyTake a2 cur l).length := by
  intro l
  induction l with
  | nil => intro cur; simp [greedyTake]
  | cons c cs ih =>
    intro cur
    unfold greedyTake
    split <;> rename_i hfit
    · rw [if_pos (le_trans hfit h)]
      simpa using ih (cur + chunkCost c)
    · split <;> simp

/-- When the greedy walk selects at least one chunk, _limit_context_size
returns exactly the greedy selection. -/
theorem limit_eq_greedy (t : Int) (first : RetrievedChunk) (rest : List RetrievedChunk)
    (h : greedyTake ((t - 500) * 4) 0 (first :: rest) ≠ []) :
    limit_context_size t (first :: rest) = greedyTake ((t - 500) * 4) 0 (first :: rest) := by
  simp only [limit_context_size]
  rw [if_neg (by simp [List.isEmpty_iff, h])]

/-- When the greedy walk selects nothing, _limit_context_size returns the
single fallback chunk built from the first input chunk. -/
theorem limit_eq_fallback (t : Int) (first : RetrievedChunk) (rest : List RetrievedChunk)
    (h : greedyTake ((t - 500) * 4) 0 (first :: rest) = []) :
    limit_context_size t (first :: rest) =
      [⟨if (first.text.length : Int) > (t - 500) * 4 - 100 then
          pythonTake ((t - 500) * 4 - 100) first.text ++ lit "..."
        else first.text,
        first.metadata, first.similarity_score⟩] := by
  simp only [limit_context_size]
  rw [h]
  simp

/-- Claim C9: increasing max_context_tokens never decreases the number of
chunks selected by _limit_context_size for the same input sequence,
including across the first-chunk-truncation edge case. -/
theorem limit_context_monotone (t1 t2 : Int) (h : t1 ≤ t2)
    (chunks : List RetrievedChunk) :
    (limit_context_size t1 chunks).length ≤ (limit_context_size t2 chunks).length := by
  cases chunks with
  | nil => simp [limit_context_size]
  | cons first rest =>
    have havail : (t1 - 500) * 4 ≤ (t2 - 500) * 4 := by linarith
    have hmono := greedyTake_length_mono _ _ havail (first :: rest) 0
    by_cases h1 : greedyTake ((t1 - 500) * 4) 0 (first :: rest) = [] <;>
      by_cases h2 : greedyTake ((t2 - 500) * 4) 0 (first :: rest) = []
    · rw [limit_eq_fallback t1 first rest h1, limit_eq_fallback t2 first rest h2]
      simp
    · rw [limit_eq_fallback t1 first rest h1, limit_eq_greedy t2 first rest h2]
      simpa using List.length_pos.mpr h2
    · exfalso
      have hpos := List.length_pos.mpr h1
      rw [h2] at hmono
      simp only [List.length_nil, Nat.le_zero] at hmono
      omega
    · rw [limit_eq_greedy t1 first rest h1, limit_eq_greedy t2 first rest h2]
      exact hmono

/-- Claim C9, witness at a concrete budget pair and chunk list. -/
theorem limit_context_monotone_witness :
    (1000 : Int) ≤ 2000 ∧
      (limit_context_size 1000
          [⟨List.replicate 100 'x', [], 0⟩, ⟨List.replicate 3000 'y', [], 0⟩]).length ≤
        (limit_context_size 2000
          [⟨List.replicate 100 'x', [], 0⟩, ⟨List.replicate 3000 'y', [], 0⟩]).length :=
  ⟨by decide,
    limit_context_monotone 1000 2000 (by decide)
      [⟨List.replicate 100 'x', [], 0⟩, ⟨List.replicate 3000 'y', [], 0⟩]⟩

/-- Claim C3, counterexample.  The claim says that when the first chunk
alone exceeds the budget its text is truncated to fit the available
character budget.  With max_context_tokens 500 the available budget is
(500 - 500) * 4 = 0 characters, yet for a 104-character first chunk the
code returns a chunk of 7 characters (a 4-character Python slice
text[:-100] plus the 3-character ellipsis), which cannot fit a budget of
0 characters. -/
theorem limit_context_truncation_cex :
    (limit_context_size 500 [⟨List.replicate 104 'x', [], 0⟩]).map
        RetrievedChunk.text = [List.replicate 4 'x' ++ lit "..."] ∧
    ¬ (((List.replicate 4 'x' ++ lit "...").length : Int) ≤ (500 - 500) * 4) := by
  decide

/-- Claim C3, amended: for a non-empty chunk list, _limit_context_size
computes the budget (max_context_tokens - 500) * 4, walks the chunks in
order accumulating text length + 100, and returns the longest prefix
whose running total stays within the budget (stopping at the first chunk
that would exceed it); when the very first chunk alone exceeds the budget
it returns exactly one chunk whose text is the Python slice
text[:budget - 100] of the first text with an ellipsis appended — never
an empty list — and that text fits the budget provided the budget is at
least 100 characters (for smaller budgets the returned text can exceed
the budget, see the counterexample). -/
theorem limit_context_spec (maxTok : Int) (first : RetrievedChunk)
    (rest : List RetrievedChunk) :
    limit_context_size maxTok (first :: rest) ≠ [] ∧
    (chunkCost first ≤ (maxTok - 500) * 4 →
      limit_context_size maxTok (first :: rest) =
          greedyTake ((maxTok - 500) * 4) 0 (first :: rest) ∧
        limit_context_size maxTok (first :: rest) <+: first :: rest ∧
        costSum (limit_context_size maxTok (first :: rest)) ≤ (maxTok - 500) * 4 ∧
        (∀ m, m ≤ (first :: rest).length →
          costSum ((first :: rest).take m) ≤ (maxTok - 500) * 4 →
          m ≤ (limit_context_size maxTok (first :: rest)).length)) ∧
    ((maxTok - 500) * 4 < chunkCost first →
      limit_context_size maxTok (first :: rest) =
          [⟨pythonTake ((maxTok - 500) * 4 - 100) first.text ++ lit "...",
            first.metadata, first.similarity_score⟩] ∧
        (100 ≤ (maxTok - 500) * 4 →
          ((pythonTake ((maxTok - 500) * 4 - 100) first.text ++ lit "...").length : Int) ≤
            (maxTok - 500) * 4)) := by
  have hcost := chunkCost_pos first
  constructor
  · by_cases hg : greedyTake ((maxTok - 500) * 4) 0 (first :: rest) = []
    · rw [limit_eq_fallback maxTok first rest hg]
      simp
    · rw [limit_eq_greedy maxTok first rest hg]
      exact hg
  constructor
  · intro hfit
    have hne : greedyTake ((maxTok - 500) * 4) 0 (first :: rest) ≠ [] := by
      simp only [greedyTake]
      rw [if_pos (by omega)]
      exact List.cons_ne_nil _ _
    have hres : limit_context_size maxTok (first :: rest) =
        greedyTake ((maxTok - 500) * 4) 0 (first :: rest) :=
      limit_eq_greedy maxTok first rest hne
    refine ⟨hres, ?_, ?_, ?_⟩
    · rw [hres]
      exact greedyTake_isPref _ _ _
    · rw [hres]
      have := greedyTake_cost ((maxTok - 500) * 4) (first :: rest) 0 (by omega)
      omega
    · intro m hm hc
      rw [hres]
      exact greedyTake_maximal _ (first :: rest) 0 m hm (by omega)
  · intro hbig
    have hgr : greedyTake ((maxTok - 500) * 4) 0 (first :: rest) = [] := by
      simp only [greedyTake]
      rw [if_neg (by omega)]
    have htrunc : ((first.text.length : Int) > (maxTok - 500) * 4 - 100) := by
      unfold chunkCost at hbig
      omega
    constructor
    · rw [limit_eq_fallback maxTok first rest hgr, if_pos htrunc]
    · intro h100
      have hlen : (pythonTake ((maxTok - 500) * 4 - 100) first.text).length ≤
          ((maxTok - 500) * 4 - 100).toNat := by
        unfold pythonTake
        rw [if_neg (by omega)]
        simp [List.length_take]
      have h3 : (lit "...").length = 3 := by decide
      rw [List.length_append, h3]
      have hc2 : ((pythonTake ((maxTok - 500) * 4 - 100) first.text).length : Int) ≤
          (maxTok - 500) * 4 - 100 := by
        omega
      push_cast
      omega

/-- Claim C3, witness: the main greedy path at a concrete budget and list,
with the longest-prefix hypothesis discharged concretely. -/
theorem limit_context_spec_witness :
    chunkCost ⟨List.replicate 100 'x', [], 0⟩ ≤ ((1000 : Int) - 500) * 4 ∧
      limit_context_size 1000
          [⟨List.replicate 100 'x', [], 0⟩, ⟨List.replicate 3000 'y', [], 0⟩] =
        greedyTake (((1000 : Int) - 500) * 4) 0
          [⟨List.replicate 100 'x', [], 0⟩, ⟨List.replicate 3000 'y', [], 0⟩] :=
  ⟨by decide,
    ((limit_context_spec 1000 ⟨List.replicate 100 'x', [], 0⟩
        [⟨List.replicate 3000 'y', [], 0⟩]).2.1 (by decide)).1⟩

/-! ### Intent detection and the query orchestration -/

/-- Claim C4: intent classification is a pure function of the question
applying the ordered rules exactly: after lower-casing and trimming, a
question in the greeting set yields GREETING; otherwise one containing
"who are you" or "what are you" yields IDENTITY; otherwise one containing
"how does vista work" or "how do you work" yields META; every other
question yields KNOWLEDGE.  The four biconditionals make the priority
order explicit and force a unique outcome. -/
theorem detect_intent_rules (question : List Char) :
    (detect_intent question = .GREETING ↔ strip (lower question) ∈ greetingSet) ∧
    (detect_intent question = .IDENTITY ↔
      (strip (lower question) ∉ greetingSet ∧
        (lit "who are you" <:+: strip (lower question) ∨
         lit "what are you" <:+: strip (lower question)))) ∧
    (detect_intent question = .META ↔
      (strip (lower question) ∉ greetingSet ∧
        ¬ (lit "who are you" <:+: strip (lower question) ∨
           lit "what are you" <:+: strip (lower question)) ∧
        (lit "how does vista work" <:+: strip (lower question) ∨
         lit "how do you work" <:+: strip (lower question)))) ∧
    (detect_intent question = .KNOWLEDGE ↔
      (strip (lower question) ∉ greetingSet ∧
        ¬ (lit "who are you" <:+: strip (lower question) ∨
           lit "what are you" <:+: strip (lower question)) ∧
        ¬ (lit "how does vista work" <:+: strip (lower question) ∨
           lit "how do you work" <:+: strip (lower question)))) := by
  simp only [detect_intent]
  split_ifs with h1 h2 h3 <;>
    refine ⟨?_, ?_, ?_, ?_⟩ <;> constructor <;> intro hx <;> simp_all

/-- Claim C4, witness: concrete questions hitting the greeting and
identity rules after case folding and trimming. -/
theorem detect_intent_rules_witness :
    detect_intent (lit "  Hello ") = .GREETING ∧
      detect_intent (lit "And who are yOu?") = .IDENTITY :=
  ⟨(detect_intent_rules (lit "  Hello ")).1.mpr (by decide),
   (detect_intent_rules (lit "And who are yOu?")).2.1.mpr (by decide)⟩

theorem queryE_ok_query {E : Type} (systemP identityP metaP : List Char)
    (maxTok : Int) (col : Collaborators E) (q : List Char) (n : Nat)
    (r : QueryResponse)
    (h : queryE systemP identityP metaP maxTok col q n = .ok r) : r.query = q := by
  unfold queryE at h
  by_cases hint : detect_intent q = .GREETING ∨ detect_intent q = .IDENTITY ∨
      detect_intent q = .META
  · rw [if_pos hint] at h
    cases hg : col.generate (construct_direct_prompt systemP identityP metaP q
        (detect_intent q)) <;> rw [hg] at h
    · rw [except_map_error] at h
      cases h
    · rw [except_map_ok] at h
      cases h
      rfl
  · rw [if_neg hint] at h
    cases he : col.embed q <;> rw [he] at h
    · rw [except_bind_error] at h
      cases h
    · rw [except_bind_ok] at h
      rename_i emb
      cases hs : col.storeQuery emb n <;> rw [hs] at h
      · rw [except_bind_error] at h
        cases h
      · rw [except_bind_ok] at h
        rename_i retrieved
        by_cases hr : retrieved.isEmpty
        · rw [if_pos hr] at h
          cases hg : col.generate (construct_no_context_prompt systemP identityP q) <;>
            rw [hg] at h
          · rw [except_map_error] at h
            cases h
          · rw [except_map_ok] at h
            cases h
            rfl
        · rw [if_neg hr] at h
          cases hg : col.generate (construct_rag_prompt systemP identityP q
              (limit_context_size maxTok retrieved)) <;> rw [hg] at h
          · rw [except_map_error] at h
            cases h
          · rw [except_map_ok] at h
            cases h
            rfl

/-- Claim C1: query never raises and always returns a QueryResponse —
in this embedding query is a total function into QueryResponse, every
collaborator failure being an error value — whose query field is always
the original question; and whenever the try-block body (queryE) fails at
any step (intent handling, retrieval, budgeting, prompt construction or
generation), the result is exactly the internal-error response with the
fixed apology answer, empty sources and the original question. -/
theorem query_never_raises {E : Type} (systemP identityP metaP : List Char)
    (maxTok : Int) (col : Collaborators E) (q : List Char) (n : Nat) :
    (query systemP identityP metaP maxTok col q n).query = q ∧
    (∀ e, queryE systemP identityP metaP maxTok col q n = .error e →
      query systemP identityP metaP maxTok col q n =
        ⟨internalErrorAnswer, [], q⟩) := by
  constructor
  · unfold query
    cases hq : queryE systemP identityP metaP maxTok col q n with
    | error e => rfl
    | ok r => exact queryE_ok_query systemP identityP metaP maxTok col q n r hq
  · intro e he
    unfold query
    rw [he]

/-- A collaborator assembly in which every call raises. -/
def colFailAll : Collaborators Unit :=
  ⟨fun _ => .error (), fun _ _ => .error (), fun _ => .error ()⟩

/-- Claim C1, witness: with collaborators that all raise, a knowledge
question produces exactly the internal-error response. -/
theorem query_never_raises_witness :
    query (lit "S") (lit "I") (lit "M") 3000 colFailAll (lit "what is vista") 5 =
      ⟨internalErrorAnswer, [], lit "what is vista"⟩ :=
  (query_never_raises (lit "S") (lit "I") (lit "M") 3000 colFailAll
    (lit "what is vista") 5).2 () (by rfl)

/-- Claim C6: for a KNOWLEDGE question on which the vector index returns
an empty result, query returns empty sources and the original question,
and its answer is produced by the LLM from the no-context prompt (system,
identity, the explicit admit-lack-of-information instruction, and the
question) — the error path is not taken. -/
theorem query_empty_retrieval {E : Type} (systemP identityP metaP : List Char)
    (maxTok : Int) (col : Collaborators E) (q : List Char) (n : Nat) (emb : E)
    (hint : detect_intent q = .KNOWLEDGE)
    (hemb : col.embed q = .ok emb)
    (hstore : col.storeQuery emb n = .ok []) :
    (query systemP identityP metaP maxTok col q n).sources = [] ∧
    (query systemP identityP metaP maxTok col q n).query = q ∧
    (∀ a, col.generate (construct_no_context_prompt systemP identityP q) = .ok a →
      query systemP identityP metaP maxTok col q n = ⟨a, [], q⟩) := by
  have hnot : ¬ (detect_intent q = .GREETING ∨ detect_intent q = .IDENTITY ∨
      detect_intent q = .META) := by
    rw [hint]
    decide
  have hq : query systemP identityP metaP maxTok col q n =
      match col.generate (construct_no_context_prompt systemP identityP q) with
      | .error _ => ⟨internalErrorAnswer, [], q⟩
      | .ok a => ⟨a, [], q⟩ := by
    unfold query queryE
    rw [if_neg hnot, hemb, except_bind_ok, hstore, except_bind_ok]
    simp only [List.isEmpty_nil, if_true, reduceIte]
    cases col.generate (construct_no_context_prompt systemP identityP q) <;> rfl
  refine ⟨?_, ?_, ?_⟩
  · rw [hq]
    cases col.generate (construct_no_context_prompt systemP identityP q) <;> rfl
  · rw [hq]
    cases col.generate (construct_no_context_prompt systemP identityP q) <;> rfl
  · intro a ha
    rw [hq, ha]

/-- A collaborator assembly whose index always returns no results and
whose LLM answers with a fixed admission text. -/
def colEmptyStore : Collaborators Nat :=
  ⟨fun _ => .ok 0, fun _ _ => .ok [], fun _ => .ok (lit "I do not have enough information.")⟩

/-- Claim C6, witness at a concrete knowledge question. -/
theorem query_empty_retrieval_witness :
    query (lit "S") (lit "I") (lit "M") 3000 colEmptyStore (lit "what is foo") 5 =
      ⟨lit "I do not have enough information.", [], lit "what is foo"⟩ :=
  (query_empty_retrieval (lit "S") (lit "I") (lit "M") 3000 colEmptyStore
      (lit "what is foo") 5 0 (by decide) (by rfl) (by rfl)).2.2
    (lit "I do not have enough information.") (by rfl)

/-- A needle without a newline cannot straddle a newline: a prefix of
a ++ newline :: b that avoids the newline character is a prefix of a. -/
theorem prefix_newline_split (n a b : List Char) (hn : '\n' ∉ n)
    (h : n <+: a ++ '\n' :: b) : n <+: a := by
  induction a generalizing n with
  | nil =>
    cases n with
    | nil => exact List.nil_prefix
    | cons x xs =>
      simp only [List.nil_append] at h
      rw [List.cons_prefix_cons] at h
      obtain ⟨rfl, -⟩ := h
      simp at hn
  | cons y ys ih =>
    cases n with
    | nil => exact List.nil_prefix
    | cons x xs =>
      rw [List.cons_append, List.cons_prefix_cons] at h
      obtain ⟨rfl, h2⟩ := h
      have hn2 : '\n' ∉ xs := fun hmem => hn (List.mem_cons_of_mem _ hmem)
      exact List.cons_prefix_cons.mpr ⟨rfl, ih xs hn2 h2⟩

/-- A needle without a newline occurring inside a ++ newline :: b occurs
inside a or inside b. -/
theorem infix_newline_split (n a b : List Char) (hn : '\n' ∉ n)
    (h : n <:+: a ++ '\n' :: b) : n <:+: a ∨ n <:+: b := by
  induction a with
  | nil =>
    simp only [List.nil_append] at h
    rw [List.infix_cons_iff] at h
    rcases h with hp | hi
    · cases n with
      | nil => exact Or.inl List.nil_infix
      | cons x xs =>
        rw [List.cons_prefix_cons] at hp
        obtain ⟨rfl, -⟩ := hp
        simp at hn
    · exact Or.inr hi
  | cons y ys ih =>
    rw [List.cons_append, List.infix_cons_iff] at h
    rcases h with hp | hi
    · have hpre := prefix_newline_split n (y :: ys) b hn (by rwa [List.cons_append])
      exact Or.inl hpre.isInfix
    · rcases ih hi with h1 | h2
      · exact Or.inl (List.infix_cons h1)
      · exact Or.inr h2

/-- Stepping a newline-free needle past a leading newline. -/
theorem infix_cons_newline (n b : List Char) (hn : '\n' ∉ n)
    (h : n <:+: '\n' :: b) : n <:+: b := by
  have h2 := infix_newline_split n [] b hn (by simpa using h)
  rcases h2 with h0 | h1
  · have hlen := h0.length_le
    simp only [List.length_nil, Nat.le_zero, List.length_eq_zero] at hlen
    subst hlen
    exact List.nil_infix
  · exact h1

/-- The direct prompt for a non-META intent, written as nested appends
around its explicit newline separators. -/
theorem construct_direct_prompt_eq_nonmeta (systemP identityP metaP q : List Char)
    (intent : QueryIntent) (h : intent ≠ .META) :
    construct_direct_prompt systemP identityP metaP q intent =
      systemP ++ '\n' :: '\n' :: (identityP ++ '\n' :: '\n' ::
        (lit "User question:" ++ '\n' ::
          (q ++ '\n' :: '\n' :: lit "Answer:"))) := by
  simp only [construct_direct_prompt, if_neg h, List.append_nil, List.nil_append,
    List.cons_append, joinSep,
    show lit "\n\n" = ['\n', '\n'] from rfl,
    show lit "User question:\n" = lit "User question:" ++ ['\n'] from rfl,
    show lit "\n\nAnswer:" = '\n' :: '\n' :: lit "Answer:" from rfl,
    List.append_assoc]

/-- The direct prompt for the META intent, written as nested appends
around its explicit newline separators. -/
theorem construct_direct_prompt_eq_meta (systemP identityP metaP q : List Char) :
    construct_direct_prompt systemP identityP metaP q .META =
      systemP ++ '\n' :: '\n' :: (identityP ++ '\n' :: '\n' ::
        (metaP ++ '\n' :: '\n' ::
          (lit "User question:" ++ '\n' ::
            (q ++ '\n' :: '\n' :: lit "Answer:")))) := by
  simp only [construct_direct_prompt, if_pos rfl, List.append_nil, List.nil_append,
    List.cons_append, joinSep,
    show lit "\n\n" = ['\n', '\n'] from rfl,
    show lit "User question:\n" = lit "User question:" ++ ['\n'] from rfl,
    show lit "\n\nAnswer:" = '\n' :: '\n' :: lit "Answer:" from rfl,
    List.append_assoc]

/-- The direct prompt contains no Context marker when none of its inputs
does: the builder itself introduces no context section. -/
theorem direct_prompt_no_context (systemP identityP metaP q : List Char)
    (intent : QueryIntent)
    (hs : ¬ lit "Context" <:+: systemP) (hi : ¬ lit "Context" <:+: identityP)
    (hm : ¬ lit "Context" <:+: metaP) (hq : ¬ lit "Context" <:+: q) :
    ¬ lit "Context" <:+: construct_direct_prompt systemP identityP metaP q intent := by
  have hn : '\n' ∉ lit "Context" := by decide
  have hUQ : ¬ lit "Context" <:+: lit "User question:" := by decide
  have hA : ¬ lit "Context" <:+: lit "Answer:" := by decide
  intro hcon
  by_cases hmeta : intent = .META
  · rw [hmeta, construct_direct_prompt_eq_meta] at hcon
    rcases infix_newline_split _ _ _ hn hcon with h | h
    · exact hs h
    have h := infix_cons_newline _ _ hn h
    rcases infix_newline_split _ _ _ hn h with h | h
    · exact hi h
    have h := infix_cons_newline _ _ hn h
    rcases infix_newline_split _ _ _ hn h with h | h
    · exact hm h
    have h := infix_cons_newline _ _ hn h
    rcases infix_newline_split _ _ _ hn h with h | h
    · exact hUQ h
    rcases infix_newline_split _ _ _ hn h with h | h
    · exact hq h
    have h := infix_cons_newline _ _ hn h
    exact hA h
  · rw [construct_direct_prompt_eq_nonmeta systemP identityP metaP q intent hmeta] at hcon
    rcases infix_newline_split _ _ _ hn hcon with h | h
    · exact hs h
    have h := infix_cons_newline _ _ hn h
    rcases infix_newline_split _ _ _ hn h with h | h
    · exact hi h
    have h := infix_cons_newline _ _ hn h
    rcases infix_newline_split _ _ _ hn h with h | h
    · exact hUQ h
    rcases infix_newline_split _ _ _ hn h with h | h
    · exact hq h
    have h := infix_cons_newline _ _ hn h
    exact hA h

/-- Claim C5: for a question whose intent is GREETING, IDENTITY or META,
query performs no retrieval — its result does not depend on the embedding
provider or the vector index at all — returns empty sources, takes its
answer from the single LLM call on the direct prompt (system + identity,
meta prompt only for META, then the question), and that prompt contains
no Context marker when neither the static prompts nor the question
contain one. -/
theorem query_direct_path {E1 E2 : Type} (systemP identityP metaP : List Char)
    (maxTok : Int) (col : Collaborators E1) (col2 : Collaborators E2)
    (q : List Char) (n n2 : Nat)
    (hintent : detect_intent q = .GREETING ∨ detect_intent q = .IDENTITY ∨
      detect_intent q = .META)
    (hgen : col2.generate = col.generate) :
    (query systemP identityP metaP maxTok col q n).sources = [] ∧
    query systemP identityP metaP maxTok col q n =
      query systemP identityP metaP maxTok col2 q n2 ∧
    (∀ a, col.generate (construct_direct_prompt systemP identityP metaP q
        (detect_intent q)) = .ok a →
      query systemP identityP metaP maxTok col q n = ⟨a, [], q⟩) ∧
    (¬ lit "Context" <:+: systemP → ¬ lit "Context" <:+: identityP →
      ¬ lit "Context" <:+: metaP → ¬ lit "Context" <:+: q →
      ¬ lit "Context" <:+: construct_direct_prompt systemP identityP metaP q
        (detect_intent q)) := by
  have hq1 : query systemP identityP metaP maxTok col q n =
      match col.generate (construct_direct_prompt systemP identityP metaP q
          (detect_intent q)) with
      | .error _ => ⟨internalErrorAnswer, [], q⟩
      | .ok a => ⟨a, [], q⟩ := by
    unfold query queryE
    rw [if_pos hintent]
    cases col.generate (construct_direct_prompt systemP identityP metaP q
      (detect_intent q)) <;> rfl
  have hq2 : query systemP identityP metaP maxTok col2 q n2 =
      match col.generate (construct_direct_prompt systemP identityP metaP q
          (detect_intent q)) with
      | .error _ => ⟨internalErrorAnswer, [], q⟩
      | .ok a => ⟨a, [], q⟩ := by
    unfold query queryE
    rw [if_pos hintent, hgen]
    cases col.generate (construct_direct_prompt systemP identityP metaP q
      (detect_intent q)) <;> rfl
  refine ⟨?_, ?_, ?_, ?_⟩
  · rw [hq1]
    cases col.generate (construct_direct_prompt systemP identityP metaP q
      (detect_intent q)) <;> rfl
  · rw [hq1, hq2]
  · intro a ha
    rw [hq1, ha]
  · exact direct_prompt_no_context systemP identityP metaP q (detect_intent q)

/-- A collaborator assembly whose LLM returns a fixed friendly answer. -/
def colGreet : Collaborators Nat :=
  ⟨fun _ => .ok 0, fun _ _ => .ok [], fun _ => .ok (lit "Hello there!")⟩

/-- Claim C5, witness at the concrete greeting question of the
specification scenario, with both collaborator assemblies concrete. -/
theorem query_direct_path_witness :
    (query (lit "S") (lit "I") (lit "M") 3000 colGreet (lit "hello") 5).sources = [] ∧
      query (lit "S") (lit "I") (lit "M") 3000 colGreet (lit "hello") 5 =
        query (lit "S") (lit "I") (lit "M") 3000 colGreet (lit "hello") 9 ∧
      query (lit "S") (lit "I") (lit "M") 3000 colGreet (lit "hello") 5 =
        ⟨lit "Hello there!", [], lit "hello"⟩ ∧
      ¬ lit "Context" <:+: construct_direct_prompt (lit "S") (lit "I") (lit "M")
        (lit "hello") (detect_intent (lit "hello")) := by
  have h := query_direct_path (lit "S") (lit "I") (lit "M") 3000 colGreet colGreet
    (lit "hello") 5 9 (by decide) rfl
  exact ⟨h.1, h.2.1, h.2.2.1 (lit "Hello there!") (by rfl),
    h.2.2.2 (by decide) (by decide) (by decide) (by decide)⟩

example : splitOnSentences (lit "abcdefgh") = lit "abcdefgh" := by decide

example : splitOnSentences (lit "a? b! c. defg") = lit "a? b! c." := by decide

example : bestSplit (lit "ab\ncd") = 3 := by decide

end Vista
